import Mathlib

/-!
Verification development for the Aqueduct transport/protocol engine.

The Rust sources are shallowly embedded:
* `src/protocol.rs` — `PixelFormat`, `FrameFlags`, the frame structures and `Packet`;
* `src/codec.rs`   — `Lz4Codec` (`encode`, `encode_into`, `decode`, `decode_into`),
  with the external `lz4_flex` block routines abstracted as an `Lz4Lib` whose
  documented contract is the predicate `Lz4Valid`;
* `src/transport.rs` — `Sender::send`, `write_packet`, and `Receiver::receive`
  (the socket is embedded as a list of read results: one list entry per
  `read_buf` call, an empty entry being a zero-byte read);
* the `tokio::sync::broadcast` fan-out channel used by `Sender` is external to
  the sources and is modelled from the specification (bounded ring with one
  cursor per subscriber and a lag count).

Byte buffers are `List Nat` with each entry a byte value; machine integers are
`Nat` with explicit `% 2^32` / `% 2^64` at the points where Rust casts or wraps.
-/

namespace Aqueduct

/-! ## Byte-order helpers (`u32::to_be_bytes`, `put_u32_le`, `from_be_bytes`, ...) -/

/-- Little-endian 4-byte encoding of `v as u32` (the low 32 bits of `v`). -/
def u32le (v : Nat) : List Nat :=
  [v % 256, v / 256 % 256, v / 65536 % 256, v / 16777216 % 256]

/-- Big-endian 4-byte encoding of `v as u32` (the low 32 bits of `v`). -/
def u32be (v : Nat) : List Nat :=
  [v / 16777216 % 256, v / 65536 % 256, v / 256 % 256, v % 256]

/-- Big-endian 8-byte encoding of `v as u64` (the low 64 bits of `v`). -/
def u64be (v : Nat) : List Nat :=
  [v / 72057594037927936 % 256, v / 281474976710656 % 256,
   v / 1099511627776 % 256, v / 4294967296 % 256,
   v / 16777216 % 256, v / 65536 % 256, v / 256 % 256, v % 256]

/-- Read a big-endian `u32` from the first four bytes of `l` (missing bytes read as 0). -/
def readBe32 (l : List Nat) : Nat :=
  (l.getD 0 0 % 256) * 16777216 + (l.getD 1 0 % 256) * 65536 +
  (l.getD 2 0 % 256) * 256 + l.getD 3 0 % 256

/-- Read a big-endian `u64` from the first eight bytes of `l`. -/
def readBe64 (l : List Nat) : Nat :=
  readBe32 l * 4294967296 + readBe32 (l.drop 4)

/-- Read a little-endian `u32` from the first four bytes of `l`. -/
def readLe32 (l : List Nat) : Nat :=
  l.getD 0 0 % 256 + (l.getD 1 0 % 256) * 256 +
  (l.getD 2 0 % 256) * 65536 + (l.getD 3 0 % 256) * 16777216

/-! ## Frame model (`src/protocol.rs`) -/

/-- The seven fixed pixel-format codes of `protocol.rs`. -/
inductive PixelFormat
  | UYVY
  | UYVA
  | BGRA
  | NV12
  | YV12
  | P216
  | PA16
deriving DecidableEq, Repr

/-- The `#[repr(u8)]` discriminant of a `PixelFormat` (Rust `format as u8`). -/
def PixelFormat.toU8 : PixelFormat → Nat
  | .UYVY => 0
  | .UYVA => 1
  | .BGRA => 2
  | .NV12 => 3
  | .YV12 => 4
  | .P216 => 5
  | .PA16 => 6

/-- Embedding of `PixelFormat::from_u8`. -/
def PixelFormat.from_u8 (n : Nat) : Option PixelFormat :=
  match n with
  | 0 => some .UYVY
  | 1 => some .UYVA
  | 2 => some .BGRA
  | 3 => some .NV12
  | 4 => some .YV12
  | 5 => some .P216
  | 6 => some .PA16
  | _ => none

/-- Embedding of `FrameFlags`. -/
structure FrameFlags where
  alpha : Bool
  premultiplied : Bool
  high_bit_depth : Bool
deriving DecidableEq, Repr

/-- Embedding of `FrameFlags::default()`. -/
def FrameFlags.default : FrameFlags :=
  { alpha := false, premultiplied := false, high_bit_depth := false }

/-- Embedding of `VideoFrame`; `timestamp` is the duration in microseconds. -/
structure VideoFrame where
  width : Nat
  height : Nat
  format : PixelFormat
  flags : FrameFlags
  timestamp : Nat
  data : List Nat
deriving DecidableEq, Repr

/-- Embedding of `AudioFrame`. -/
structure AudioFrame where
  sample_rate : Nat
  channels : Nat
  timestamp : Nat
  data : List Nat
deriving DecidableEq, Repr

/-- Embedding of `MetadataFrame`; `content` is kept as its raw UTF-8 bytes
(the receiver's lossy text decoding is not needed by any claim). -/
structure MetadataFrame where
  timestamp : Nat
  content : List Nat
deriving DecidableEq, Repr

/-- Embedding of `Packet`. -/
inductive Packet
  | Video (frame : VideoFrame)
  | Audio (frame : AudioFrame)
  | Metadata (frame : MetadataFrame)
deriving DecidableEq, Repr

/-! ## `bytes::BytesMut` model

A growable byte buffer: its readable bytes plus its allocated capacity.
Only the operations used by `codec.rs` and `transport.rs` are embedded. -/

/-- A `BytesMut`: readable content plus capacity. -/
structure BytesMut where
  data : List Nat
  cap : Nat
deriving DecidableEq, Repr

/-- Length of the readable content (`BytesMut::len`). -/
def BytesMut.len (b : BytesMut) : Nat := b.data.length

/-- Embedding of `BytesMut::reserve(additional)`: capacity becomes at least
`len + additional`. -/
def BytesMut.reserve (b : BytesMut) (additional : Nat) : BytesMut :=
  ⟨b.data, max b.cap (b.data.length + additional)⟩

/-- Embedding of `BytesMut::resize(n, fill)`: truncate or pad with `fill`. -/
def BytesMut.resize (b : BytesMut) (n : Nat) (fill : Nat) : BytesMut :=
  ⟨b.data.take n ++ List.replicate (n - b.data.length) fill, max b.cap n⟩

/-- Embedding of `BytesMut::truncate(n)`. -/
def BytesMut.truncate (b : BytesMut) (n : Nat) : BytesMut :=
  ⟨b.data.take n, b.cap⟩

/-- Embedding of `BytesMut::put_u32_le(v)` (appends, reserving as needed). -/
def BytesMut.put_u32_le (b : BytesMut) (v : Nat) : BytesMut :=
  ⟨b.data ++ u32le v, max b.cap (b.data.length + 4)⟩

/-- Embedding of `BytesMut::clear()`: drops the content, keeps the capacity. -/
def BytesMut.clear (b : BytesMut) : BytesMut :=
  ⟨[], b.cap⟩

/-! ## The external `lz4_flex` block routines

`lz4_flex` is a third-party crate, not part of this repository.  It is
abstracted as a block compressor/decompressor pair; `Lz4Valid` is its
documented contract (decompressing a compressed block restores the input, and
a compressed block fits in `get_maximum_output_size` of the input length). -/

/-- Embedding of `lz4_flex::block::get_maximum_output_size`
(`input_len + input_len / 255 + 16`). -/
def get_maximum_output_size (n : Nat) : Nat := n + n / 255 + 16

/-- An abstract LZ4 block library: total compression, fallible decompression. -/
structure Lz4Lib where
  compressBlock : List Nat → List Nat
  decompressBlock : List Nat → Option (List Nat)

/-- The documented contract of the `lz4_flex` block routines. -/
structure Lz4Valid (lib : Lz4Lib) : Prop where
  roundtrip : ∀ x, lib.decompressBlock (lib.compressBlock x) = some x
  fits : ∀ x : List Nat, (lib.compressBlock x).length ≤ get_maximum_output_size x.length

/-- Embedding of `lz4_flex::compress_into(input, slice)`: writes the compressed
block at the start of the slice, returning the written slice and the size, or
an error when the slice is too small. -/
def lz4_compress_into (lib : Lz4Lib) (input : List Nat) (slice : List Nat) :
    Except String (List Nat × Nat) :=
  let c := lib.compressBlock input
  if c.length ≤ slice.length then .ok (c ++ slice.drop c.length, c.length)
  else .error "output too small"

/-- Embedding of `lz4_flex::decompress_into(input, slice)`: writes the
decompressed bytes at the start of the slice, returning the written slice and
the size, or an error on malformed input or a too-small slice. -/
def lz4_decompress_into (lib : Lz4Lib) (input : List Nat) (slice : List Nat) :
    Except String (List Nat × Nat) :=
  match lib.decompressBlock input with
  | none => .error "invalid input"
  | some r =>
      if r.length ≤ slice.length then .ok (r ++ slice.drop r.length, r.length)
      else .error "output too small"

/-- The identity block codec: a concrete `Lz4Lib` satisfying `Lz4Valid`,
used to evaluate the development on concrete inputs. -/
def idLib : Lz4Lib :=
  { compressBlock := fun x => x
    decompressBlock := fun x => some x }

/-! ## Errors (`src/error.rs`) -/

/-- Embedding of the `AqueductError` variants reachable in the embedded code. -/
inductive AqueductError
  | Io (kind : String)
  | Protocol (msg : String)
deriving DecidableEq, Repr

/-! ## Codec (`src/codec.rs`, `impl VideoEncoder/VideoDecoder for Lz4Codec`) -/

/-- Embedding of `Lz4Codec::encode_into(frame, dst)`. -/
def Lz4Codec.encode_into (lib : Lz4Lib) (frame : VideoFrame) (dst : BytesMut) :
    Except AqueductError BytesMut :=
  let max_len := get_maximum_output_size frame.data.length
  let total_required := 4 + max_len
  let dst1 := if dst.cap < dst.len + total_required then dst.reserve total_required else dst
  let dst2 := dst1.put_u32_le frame.data.length
  let start_len := dst2.len
  let dst3 := dst2.resize (start_len + max_len) 0
  match lz4_compress_into lib frame.data (dst3.data.drop start_len) with
  | .error e => .error (.Protocol ("Compression error: " ++ e))
  | .ok (written, compressed_size) =>
      let dst4 : BytesMut := ⟨dst3.data.take start_len ++ written, dst3.cap⟩
      .ok (dst4.truncate (start_len + compressed_size))

/-- Embedding of `Lz4Codec::encode(frame)` (allocating path; the frozen bytes). -/
def Lz4Codec.encode (lib : Lz4Lib) (frame : VideoFrame) :
    Except AqueductError (List Nat) :=
  (Lz4Codec.encode_into lib frame ⟨[], frame.data.length + 8⟩).map BytesMut.data

/-- Embedding of `Lz4Codec::decode_into(data, dst)`. -/
def Lz4Codec.decode_into (lib : Lz4Lib) (data : List Nat) (dst : BytesMut) :
    Except AqueductError BytesMut :=
  if data.length < 4 then .error (.Protocol "Data too short for header")
  else
    let uncompressed_size := readLe32 data
    let dst1 := if dst.cap < uncompressed_size
                then dst.reserve (uncompressed_size - dst.len) else dst
    let dst2 := dst1.resize uncompressed_size 0
    match lz4_decompress_into lib (data.drop 4) dst2.data with
    | .error e => .error (.Protocol ("Decompression error: " ++ e))
    | .ok (written, _size) => .ok ⟨written, dst2.cap⟩

/-- Embedding of `Lz4Codec::decode(data)` (allocating path; the frozen bytes). -/
def Lz4Codec.decode (lib : Lz4Lib) (data : List Nat) :
    Except AqueductError (List Nat) :=
  if data.length < 4 then .error (.Protocol "Data too short for header")
  else (Lz4Codec.decode_into lib data ⟨[], readLe32 data⟩).map BytesMut.data

/-! ## Sender (`src/transport.rs`, `Sender::send`)

The observable of `send` is the packet published to the broadcast channel
(or the propagated error).  `shared` is the lock-guarded compression buffer;
`lockOk` is whether `self.compression_buffer.lock()` succeeded. -/

/-- Embedding of `Sender::send`: a video frame's payload is compressed in
place (reusing the shared buffer when the lock is held, falling back to the
allocating `encode` when the lock fails or `encode_into` errors); audio and
metadata packets pass through.  Returns the packet handed to `tx.send`. -/
def Sender.send (lib : Lz4Lib) (shared : BytesMut) (lockOk : Bool) (p : Packet) :
    Except AqueductError Packet :=
  match p with
  | .Video frame =>
      let compressed : Except AqueductError (List Nat) :=
        if lockOk then
          match Lz4Codec.encode_into lib frame shared.clear with
          | .error _e => Lz4Codec.encode lib frame
          | .ok buffer => .ok buffer.data
        else Lz4Codec.encode lib frame
      match compressed with
      | .error e => .error e
      | .ok bytes => .ok (.Video { frame with data := bytes })
  | other => .ok other

/-! ## Wire framing (`src/transport.rs`, `write_packet`) -/

/-- The video record's length field: `4 + 4 + 1 + 8 + frame.data.len() as u32`,
computed in wrapping `u32` arithmetic. -/
def videoLenField (dataLen : Nat) : Nat :=
  (4 + 4 + 1 + 8 + dataLen % 4294967296) % 4294967296

/-- The audio record's length field: `4 + 4 + 8 + frame.data.len() as u32`. -/
def audioLenField (dataLen : Nat) : Nat :=
  (4 + 4 + 8 + dataLen % 4294967296) % 4294967296

/-- The metadata record's length field: `8 + bytes.len() as u32`. -/
def metadataLenField (contentLen : Nat) : Nat :=
  (8 + contentLen % 4294967296) % 4294967296

/-- Embedding of `write_packet`: the exact byte sequence written to the socket. -/
def write_packet : Packet → List Nat
  | .Video f =>
      1 :: (u32be (videoLenField f.data.length) ++ u32be f.width ++ u32be f.height ++
            [f.format.toU8] ++ u64be f.timestamp ++ f.data)
  | .Audio f =>
      2 :: (u32be (audioLenField f.data.length) ++ u32be f.sample_rate ++
            u32be f.channels ++ u64be f.timestamp ++ f.data)
  | .Metadata f =>
      3 :: (u32be (metadataLenField f.content.length) ++ u64be f.timestamp ++ f.content)

/-! ## Receiver (`src/transport.rs`, `Receiver::receive`)

The socket is a list of `read_buf` results: each entry is the chunk of bytes
one read appends to the buffer, an empty entry being a zero-byte read (peer
closed).  A `receive` that runs out of scheduled reads while still needing
bytes is `blocked` — the real reader would keep awaiting. -/

/-- Result of one of the two accumulation loops in `Receiver::receive`. -/
inductive FillResult
  | filled (buffer : List Nat) (chunks : List (List Nat))
  | eof (buffer : List Nat)
  | blocked
deriving DecidableEq, Repr

/-- One accumulation loop: keep reading until `target` bytes are buffered,
stopping on a zero-byte read. -/
def fill (target : Nat) : List (List Nat) → List Nat → FillResult
  | chunks, buffer =>
    if target ≤ buffer.length then .filled buffer chunks
    else
      match chunks with
      | [] => .blocked
      | c :: rest => if c.length = 0 then .eof buffer else fill target rest (buffer ++ c)

/-- Outcome of `Receiver::receive`: a delivered packet (with the bytes left in
the buffer and the unread chunks), an error, a crash inside a `bytes::Buf`
getter (`panic`), or an indefinitely awaiting read (`blocked`). -/
inductive RecvResult
  | ok (p : Packet) (buffer : List Nat) (chunks : List (List Nat))
  | err (e : AqueductError)
  | panic
  | blocked
deriving DecidableEq, Repr

/-- Embedding of `Receiver::receive`.  The persistent decompression buffer is
empty at every entry (it is `split()` out after each use), embedded as a fresh
empty buffer of capacity 4096. -/
def Receiver.receive (lib : Lz4Lib) (chunks : List (List Nat)) (buffer : List Nat) :
    RecvResult :=
  match fill 5 chunks buffer with
  | .blocked => .blocked
  | .eof buf =>
      if buf.isEmpty then .err (.Io "UnexpectedEof")
      else .err (.Protocol "Connection closed incomplete")
  | .filled buf chunks1 =>
    let type_id := buf.getD 0 0
    let len := readBe32 (buf.drop 1)
    if 100000000 < len then .err (.Protocol "Packet too large")
    else
      match fill (5 + len) chunks1 buf with
      | .blocked => .blocked
      | .eof _ => .err (.Io "UnexpectedEof")
      | .filled buf2 chunks2 =>
        let payload := (buf2.drop 5).take len
        let remaining := buf2.drop (5 + len)
        match type_id with
        | 1 =>
            if len < 21 then .err (.Protocol "Video packet too short")
            else
              let width := readBe32 payload
              let height := readBe32 (payload.drop 4)
              let format_byte := (payload.drop 8).getD 0 0
              let timestamp_micros := readBe64 (payload.drop 9)
              let compressed_data := payload.drop 17
              match PixelFormat.from_u8 format_byte with
              | none => .err (.Protocol "Invalid pixel format")
              | some format =>
                match Lz4Codec.decode_into lib compressed_data ⟨[], 4096⟩ with
                | .error e => .err e
                | .ok dbuf =>
                    .ok (.Video ⟨width, height, format, FrameFlags.default,
                                 timestamp_micros, dbuf.data⟩) remaining chunks2
        | 2 =>
            if payload.length < 16 then .panic
            else
              .ok (.Audio ⟨readBe32 payload, readBe32 (payload.drop 4),
                           readBe64 (payload.drop 8), payload.drop 16⟩) remaining chunks2
        | 3 =>
            if payload.length < 8 then .panic
            else
              .ok (.Metadata ⟨readBe64 payload, payload.drop 8⟩) remaining chunks2
        | _ => .err (.Protocol "Unknown packet type")

/-! ## Fan-out channel

Modelled from the spec: the bounded multi-subscriber publish channel
(`tokio::sync::broadcast`, an external crate) is, per spec §4.2/§9, a bounded
ring of sequence-numbered packets of capacity 16 with one read cursor per
subscriber; a subscriber whose cursor falls further behind than the capacity
is advanced to the oldest still-available sequence and told how many packets
it skipped. -/

/-- The channel capacity (`broadcast::channel(16)` in `Sender::new`). -/
def chanCap : Nat := 16

/-- Outcome of one subscriber `recv` call: a packet (by publish index), a lag
report, or nothing available yet. -/
inductive RecvOut
  | msg (idx : Nat)
  | lagged (count : Nat)
  | empty
deriving DecidableEq, Repr

/-- Modelled from the spec: one subscriber `recv` against `published` packets
with read cursor `cursor`. -/
def chanRecv (cursor published : Nat) : RecvOut × Nat :=
  if cursor = published then (.empty, cursor)
  else if published - cursor ≤ chanCap then (.msg cursor, cursor + 1)
  else (.lagged (published - chanCap - cursor), published - chanCap)

/-- A publisher/subscriber schedule event: one publish, or one subscriber recv. -/
inductive ChanEv
  | pub
  | recv

/-- Run a schedule from `published` packets and subscriber cursor `cursor`,
returning the subscriber's outcomes and the final (published, cursor) state. -/
def chanRun : List ChanEv → Nat → Nat → List RecvOut × Nat × Nat
  | [], published, cursor => ([], published, cursor)
  | ChanEv.pub :: evs, published, cursor => chanRun evs (published + 1) cursor
  | ChanEv.recv :: evs, published, cursor =>
      let r := chanRecv cursor published
      let rest := chanRun evs published r.2
      (r.1 :: rest.1, rest.2)

/-- The publish indices a list of outcomes delivered. -/
def deliveredOf (outs : List RecvOut) : List Nat :=
  outs.filterMap fun o => match o with | .msg i => some i | _ => none

/-! ## Byte-order lemmas -/

theorem length_u32le (v : Nat) : (u32le v).length = 4 := rfl

theorem length_u32be (v : Nat) : (u32be v).length = 4 := rfl

theorem length_u64be (v : Nat) : (u64be v).length = 8 := rfl

theorem drop4_u32le (v : Nat) (t : List Nat) : (u32le v ++ t).drop 4 = t := rfl

theorem drop4_u32be (v : Nat) (t : List Nat) : (u32be v ++ t).drop 4 = t := rfl

theorem drop8_u64be (v : Nat) (t : List Nat) : (u64be v ++ t).drop 8 = t := rfl

theorem readLe32_u32le (v : Nat) (t : List Nat) :
    readLe32 (u32le v ++ t) = v % 4294967296 := by
  simp only [u32le, readLe32, List.cons_append, List.nil_append,
    List.getD_cons_zero, List.getD_cons_succ]
  omega

theorem readBe32_u32be (v : Nat) (t : List Nat) :
    readBe32 (u32be v ++ t) = v % 4294967296 := by
  simp only [u32be, readBe32, List.cons_append, List.nil_append,
    List.getD_cons_zero, List.getD_cons_succ]
  omega

theorem u64be_eq_u32be (v : Nat) : u64be v = u32be (v / 4294967296) ++ u32be v := by
  simp only [u64be, u32be, List.cons_append, List.nil_append, List.cons.injEq]
  norm_num [Nat.div_div_eq_div_mul]

theorem readBe64_u64be (v : Nat) (t : List Nat) :
    readBe64 (u64be v ++ t) = v % 18446744073709551616 := by
  rw [readBe64, u64be_eq_u32be, List.append_assoc, readBe32_u32be,
      List.drop_left' (length_u32be _), readBe32_u32be]
  omega

theorem from_u8_toU8 (f : PixelFormat) : PixelFormat.from_u8 f.toU8 = some f := by
  cases f <;> rfl

/-! ## Codec lemmas -/

/-- When the compressed block fits the reserved worst case (which the
`lz4_flex` contract guarantees), `encode_into` appends the 4-byte
little-endian uncompressed size and the compressed block after the
pre-existing content, growing the capacity to fit. -/
theorem encode_into_ok (lib : Lz4Lib) (f : VideoFrame) (dst : BytesMut)
    (hfits : (lib.compressBlock f.data).length ≤ get_maximum_output_size f.data.length) :
    Lz4Codec.encode_into lib f dst =
      .ok ⟨dst.data ++ u32le f.data.length ++ lib.compressBlock f.data,
           max dst.cap (dst.data.length + 4 + get_maximum_output_size f.data.length)⟩ := by
  obtain ⟨D, C⟩ := dst
  set n := f.data.length with hn
  set M := get_maximum_output_size n with hM
  set c := lib.compressBlock f.data with hc
  set A := D ++ u32le n with hA
  have hAlen : A.length = D.length + 4 := by rw [hA, List.length_append, length_u32le]
  have step1 :
      (if (BytesMut.mk D C).cap < (BytesMut.mk D C).len + (4 + M)
       then (BytesMut.mk D C).reserve (4 + M) else BytesMut.mk D C)
        = ⟨D, max C (D.length + (4 + M))⟩ := by
    simp only [BytesMut.reserve, BytesMut.len]
    split_ifs with h <;> simp only [BytesMut.mk.injEq, true_and] <;> omega
  have step2 : BytesMut.put_u32_le ⟨D, max C (D.length + (4 + M))⟩ n
      = ⟨A, max C (D.length + (4 + M))⟩ := by
    simp only [BytesMut.put_u32_le, hA, BytesMut.mk.injEq, true_and]
    omega
  have step3 : BytesMut.resize ⟨A, max C (D.length + (4 + M))⟩ (A.length + M) 0
      = ⟨A ++ List.replicate M 0, max C (D.length + (4 + M))⟩ := by
    simp only [BytesMut.resize, List.take_of_length_le (Nat.le_add_right A.length M),
      Nat.add_sub_cancel_left, BytesMut.mk.injEq, true_and]
    omega
  have step4 : lz4_compress_into lib f.data ((A ++ List.replicate M 0).drop A.length)
      = .ok (c ++ (List.replicate M 0).drop c.length, c.length) := by
    rw [List.drop_left]
    simp only [lz4_compress_into, ← hc]
    rw [if_pos (by simpa using hfits)]
  have step5 : ((A ++ List.replicate M 0).take A.length ++
        (c ++ (List.replicate M 0).drop c.length)).take (A.length + c.length)
      = A ++ c := by
    rw [List.take_left, List.take_append, List.take_left]
  show Lz4Codec.encode_into lib f ⟨D, C⟩ = _
  simp only [Lz4Codec.encode_into, ← hn, ← hM]
  rw [step1, step2]
  simp only [BytesMut.len]
  rw [step3, step4]
  simp only [BytesMut.truncate]
  rw [step5]
  simp only [Except.ok.injEq, BytesMut.mk.injEq, hA, List.append_assoc, true_and]
  omega

/-- `encode` produces the 4-byte little-endian uncompressed size followed by
the compressed block. -/
theorem encode_ok (lib : Lz4Lib) (f : VideoFrame)
    (hfits : (lib.compressBlock f.data).length ≤ get_maximum_output_size f.data.length) :
    Lz4Codec.encode lib f = .ok (u32le f.data.length ++ lib.compressBlock f.data) := by
  unfold Lz4Codec.encode
  rw [encode_into_ok lib f _ hfits]
  rfl

/-- When the block after the 4-byte prefix decompresses to `r` of exactly the
declared size, `decode_into` replaces the destination's content with `r`,
growing the capacity to fit. -/
theorem decode_into_ok (lib : Lz4Lib) (data : List Nat) (dst : BytesMut) (r : List Nat)
    (hinv : dst.data.length ≤ dst.cap)
    (h4 : 4 ≤ data.length)
    (hdec : lib.decompressBlock (data.drop 4) = some r)
    (hr : r.length = readLe32 data) :
    Lz4Codec.decode_into lib data dst = .ok ⟨r, max dst.cap (readLe32 data)⟩ := by
  set u := readLe32 data with hu
  unfold Lz4Codec.decode_into
  rw [if_neg (by omega)]
  simp only [BytesMut.reserve, BytesMut.resize, BytesMut.len, ← hu]
  have hlen : (dst.data.take u ++ List.replicate (u - dst.data.length) 0).length = u := by
    simp only [List.length_append, List.length_take, List.length_replicate]
    omega
  have hres : (lz4_decompress_into lib (data.drop 4)
        (dst.data.take u ++ List.replicate (u - dst.data.length) 0)) =
        .ok (r, r.length) := by
    simp only [lz4_decompress_into, hdec]
    rw [if_pos (by rw [hlen]; omega)]
    have hd : (dst.data.take u ++ List.replicate (u - dst.data.length) 0).drop r.length
        = [] := List.drop_eq_nil_of_le (by rw [hlen]; omega)
    rw [hd, List.append_nil]
  split_ifs with h1 <;>
    simp only [hres, Except.ok.injEq, BytesMut.mk.injEq, true_and] <;>
    omega

/-- `decode` of a size-prefixed block whose payload decompresses to the
declared size recovers the original bytes. -/
theorem decode_ok (lib : Lz4Lib) (x c : List Nat)
    (hx : x.length < 4294967296)
    (hdec : lib.decompressBlock c = some x) :
    Lz4Codec.decode lib (u32le x.length ++ c) = .ok x := by
  have hlen : readLe32 (u32le x.length ++ c) = x.length := by
    rw [readLe32_u32le]; omega
  unfold Lz4Codec.decode
  rw [if_neg (by simp only [List.length_append, length_u32le, Nat.not_lt]; omega)]
  rw [decode_into_ok lib _ _ x (by simp)
        (by simp only [List.length_append, length_u32le]; omega)
        (by rw [drop4_u32le]; exact hdec) hlen.symm]
  rfl

/-- The identity block codec satisfies the `lz4_flex` contract. -/
theorem idLib_valid : Lz4Valid idLib :=
  ⟨fun _ => rfl, fun x => by simp only [idLib, get_maximum_output_size]; omega⟩

/-! ## Claim C2 -/

/-- C2: for every frame whose data has a length the codec supports (it must
fit the 4-byte size field), `encode` produces the 4-byte little-endian
uncompressed-size prefix followed by the compressed block, and `decode` of
that result returns exactly the original data. -/
theorem c2_codec_roundtrip (lib : Lz4Lib) (f : VideoFrame)
    (hv : Lz4Valid lib) (hmax : f.data.length < 4294967296) :
    Lz4Codec.encode lib f = .ok (u32le f.data.length ++ lib.compressBlock f.data) ∧
    Except.bind (Lz4Codec.encode lib f) (Lz4Codec.decode lib) = .ok f.data := by
  have he := encode_ok lib f (hv.fits f.data)
  refine ⟨he, ?_⟩
  rw [he]
  show Lz4Codec.decode lib (u32le f.data.length ++ lib.compressBlock f.data) = .ok f.data
  exact decode_ok lib f.data (lib.compressBlock f.data) hmax (hv.roundtrip f.data)

/-- Witness for C2 at the identity block codec and a concrete 3-byte frame. -/
theorem c2_codec_roundtrip_witness :
    Lz4Codec.encode idLib ⟨4, 4, .BGRA, FrameFlags.default, 0, [1, 2, 3]⟩ =
      .ok (u32le 3 ++ idLib.compressBlock [1, 2, 3]) ∧
    Except.bind (Lz4Codec.encode idLib ⟨4, 4, .BGRA, FrameFlags.default, 0, [1, 2, 3]⟩)
      (Lz4Codec.decode idLib) = .ok [1, 2, 3] :=
  c2_codec_roundtrip idLib ⟨4, 4, .BGRA, FrameFlags.default, 0, [1, 2, 3]⟩
    idLib_valid (by norm_num)

/-! ## Claim C6 -/

/-- C6: every code 0..=6 decodes to a pixel-format variant that re-encodes to
the same code, and every code above 6 is rejected by `from_u8`. -/
theorem c6_pixel_format_codes (n : Nat) :
    (n ≤ 6 → ∃ f : PixelFormat, PixelFormat.from_u8 n = some f ∧ f.toU8 = n) ∧
    (6 < n → PixelFormat.from_u8 n = none) := by
  constructor
  · intro h
    interval_cases n <;> exact ⟨_, rfl, rfl⟩
  · intro h
    obtain ⟨m, rfl⟩ : ∃ m, n = m + 7 := ⟨n - 7, by omega⟩
    rfl

/-- Witness for C6 at codes 2 and 9. -/
theorem c6_pixel_format_codes_witness :
    (∃ f : PixelFormat, PixelFormat.from_u8 2 = some f ∧ f.toU8 = 2) ∧
    PixelFormat.from_u8 9 = none :=
  ⟨(c6_pixel_format_codes 2).1 (by norm_num), (c6_pixel_format_codes 9).2 (by norm_num)⟩

/-! ## Claim C5 (corrected)

The claim holds for `encode_into` but fails for `decode_into`: `decode_into`
resizes the destination to the declared uncompressed size and decompresses
into it from index 0, so pre-existing content — including content beyond the
region this call writes — is destroyed, not preserved. -/

/-- Counterexample to C5 as stated: `decode_into` of a block with declared
size 1 into a buffer holding `[7, 8, 9]` succeeds and leaves the buffer
holding `[5]`; the pre-existing bytes `[8, 9]` outside the written region
(indices ≥ 1) are gone rather than unchanged. -/
theorem c5_counterexample :
    Lz4Codec.decode_into idLib [1, 0, 0, 0, 5] ⟨[7, 8, 9], 3⟩ =
      .ok ⟨[5], 3⟩ ∧
    [5].drop 1 ≠ [7, 8, 9].drop 1 :=
  ⟨rfl, by decide⟩

/-- C5 amended: `encode_into` grows the capacity to fit and appends after the
pre-existing content, leaving it byte-for-byte unchanged; `decode_into` grows
the capacity to fit but resizes the buffer to the declared uncompressed size
and overwrites it from the start, so its result is exactly the decoded bytes
and pre-existing content is not preserved. -/
theorem c5_buffer_reuse_amended (lib : Lz4Lib) (f : VideoFrame)
    (data : List Nat) (r : List Nat) (dst dst2 : BytesMut) :
    ((lib.compressBlock f.data).length ≤ get_maximum_output_size f.data.length →
      Lz4Codec.encode_into lib f dst =
        .ok ⟨dst.data ++ u32le f.data.length ++ lib.compressBlock f.data,
             max dst.cap (dst.data.length + 4 + get_maximum_output_size f.data.length)⟩ ∧
      (dst.data ++ u32le f.data.length ++ lib.compressBlock f.data).take dst.data.length
        = dst.data ∧
      (dst.data ++ u32le f.data.length ++ lib.compressBlock f.data).length
        ≤ max dst.cap (dst.data.length + 4 + get_maximum_output_size f.data.length)) ∧
    (dst2.data.length ≤ dst2.cap → 4 ≤ data.length →
      lib.decompressBlock (data.drop 4) = some r → r.length = readLe32 data →
      Lz4Codec.decode_into lib data dst2 = .ok ⟨r, max dst2.cap (readLe32 data)⟩ ∧
      r.length ≤ max dst2.cap (readLe32 data)) := by
  constructor
  · intro hfits
    refine ⟨encode_into_ok lib f dst hfits, ?_, ?_⟩
    · rw [List.append_assoc, List.take_left]
    · simp only [List.length_append, length_u32le, get_maximum_output_size] at hfits ⊢
      omega
  · intro hinv h4 hdec hr
    refine ⟨decode_into_ok lib data dst2 r hinv h4 hdec hr, ?_⟩
    omega

/-- Witness for C5's amended statement at the identity block codec. -/
theorem c5_buffer_reuse_amended_witness :
    (Lz4Codec.encode_into idLib ⟨4, 4, .BGRA, FrameFlags.default, 0, [9]⟩ ⟨[1, 2], 2⟩ =
        .ok ⟨[1, 2] ++ u32le 1 ++ idLib.compressBlock [9],
             max 2 (2 + 4 + get_maximum_output_size 1)⟩ ∧
      ([1, 2] ++ u32le 1 ++ idLib.compressBlock [9]).take 2 = [1, 2] ∧
      ([1, 2] ++ u32le 1 ++ idLib.compressBlock [9]).length
        ≤ max 2 (2 + 4 + get_maximum_output_size 1)) ∧
    (Lz4Codec.decode_into idLib [1, 0, 0, 0, 5] ⟨[7, 8, 9], 3⟩ =
        .ok ⟨[5], max 3 (readLe32 [1, 0, 0, 0, 5])⟩ ∧
      [5].length ≤ max 3 (readLe32 [1, 0, 0, 0, 5])) :=
  ⟨(c5_buffer_reuse_amended idLib ⟨4, 4, .BGRA, FrameFlags.default, 0, [9]⟩
      [1, 0, 0, 0, 5] [5] ⟨[1, 2], 2⟩ ⟨[7, 8, 9], 3⟩).1
      (idLib_valid.fits [9]),
   (c5_buffer_reuse_amended idLib ⟨4, 4, .BGRA, FrameFlags.default, 0, [9]⟩
      [1, 0, 0, 0, 5] [5] ⟨[1, 2], 2⟩ ⟨[7, 8, 9], 3⟩).2
      (by norm_num) (by norm_num) rfl (by norm_num [readLe32])⟩

/-! ## Receive-loop lemmas -/

theorem fill_done (t : Nat) (chunks : List (List Nat)) (buffer : List Nat)
    (h : t ≤ buffer.length) : fill t chunks buffer = .filled buffer chunks := by
  rw [fill.eq_def]
  simp only [h, if_true]

theorem fill_step (t : Nat) (c : List Nat) (rest : List (List Nat)) (buffer : List Nat)
    (h1 : ¬ t ≤ buffer.length) (h2 : c.length ≠ 0) :
    fill t (c :: rest) buffer = fill t rest (buffer ++ c) := by
  conv_lhs => rw [fill.eq_def]
  simp only [h1, if_false, h2, if_neg]

theorem fill_eof (t : Nat) (rest : List (List Nat)) (buffer : List Nat)
    (h1 : ¬ t ≤ buffer.length) :
    fill t ([] :: rest) buffer = .eof buffer := by
  rw [fill.eq_def]
  simp [h1]

/-! ## Claim C10 -/

/-- C10: the video record's length field is
`4 + 4 + 1 + 8 + frame.data.len() as u32`, so for a frame with
`2^32 - 16` data bytes (more than `u32::MAX - 17`) the field wraps to 1,
which is not the `17 + 2^32 - 16` payload bytes actually written. -/
theorem c10_len_field_wrap :
    4294967295 - 17 < (List.replicate 4294967280 0).length ∧
    write_packet (.Video ⟨1, 1, .UYVY, FrameFlags.default, 0, List.replicate 4294967280 0⟩)
      = 1 :: (u32be (videoLenField (List.replicate 4294967280 0).length) ++
              u32be 1 ++ u32be 1 ++ [0] ++ u64be 0 ++ List.replicate 4294967280 0) ∧
    videoLenField (List.replicate 4294967280 0).length = 1 ∧
    17 + (List.replicate 4294967280 0).length
      ≠ videoLenField (List.replicate 4294967280 0).length := by
  refine ⟨by rw [List.length_replicate]; norm_num, rfl, ?_, ?_⟩
  · rw [videoLenField, List.length_replicate]
  · rw [videoLenField, List.length_replicate]
    norm_num

/-! ## Claim C4 (code_bug)

The claim's requirement holds for unknown type codes, unknown pixel formats
and short video payloads, but an audio record whose payload is shorter than
its 16 fixed bytes (or a metadata record shorter than 8) makes
`Receiver::receive` panic inside `bytes::Buf::get_u32`/`get_u64` instead of
returning a protocol error: the dispatch checks `len < 21` for video only. -/

/-- C4 failing input: the five wire bytes `[0x02, 0, 0, 0, 0]` — an audio
record with declared payload length 0 — crash the receiver (panic) instead of
producing a protocol error. -/
theorem c4_audio_short_panics (lib : Lz4Lib) :
    Receiver.receive lib [[2, 0, 0, 0, 0]] [] = .panic ∧
    Receiver.receive lib [[3, 0, 0, 0, 3, 1, 2, 3]] [] = .panic ∧
    Receiver.receive lib [[9, 0, 0, 0, 0]] [] = .err (.Protocol "Unknown packet type") ∧
    Receiver.receive lib [[1, 0, 0, 0, 20] ++ List.replicate 20 0] []
      = .err (.Protocol "Video packet too short") :=
  ⟨rfl, rfl, rfl, rfl⟩

/-! ## Claim C3 (corrected)

A zero-byte read with a partial header buffered yields a `Protocol` error,
distinguishable from the empty-buffer (clean end-of-stream) `Io` error; but a
zero-byte read with a partial body buffered yields the very same
`Io("UnexpectedEof")` value as clean end-of-stream, so the partial-body case
is not distinguishable as the claim requires. -/

/-- Counterexample to C3 as stated: receiving `[1, 0, 0, 0, 30, 0]` (a full
header declaring a 30-byte body plus 1 buffered body byte) followed by a
zero-byte read produces exactly the same error as a zero-byte read on an
empty buffer. -/
theorem c3_counterexample :
    Receiver.receive idLib [[1, 0, 0, 0, 30, 0], []] [] = .err (.Io "UnexpectedEof") ∧
    Receiver.receive idLib [[]] [] = .err (.Io "UnexpectedEof") ∧
    Receiver.receive idLib [[1, 0, 0, 0, 30, 0], []] [] = Receiver.receive idLib [[]] [] :=
  ⟨rfl, rfl, rfl⟩

/-- C3 amended: a zero-byte read on an empty buffer yields
`Io("UnexpectedEof")` (clean end-of-stream); a zero-byte read with a partial
header buffered yields the distinguishable `Protocol` error; a zero-byte read
with a partial body buffered yields `Io("UnexpectedEof")` again — the same
value as clean end-of-stream, not a distinguishable truncated-stream error. -/
theorem c3_eof_amended (lib : Lz4Lib) (c : List Nat) :
    Receiver.receive lib [[]] [] = .err (.Io "UnexpectedEof") ∧
    (c ≠ [] → c.length < 5 →
      Receiver.receive lib [c, []] [] = .err (.Protocol "Connection closed incomplete") ∧
      AqueductError.Protocol "Connection closed incomplete" ≠ .Io "UnexpectedEof") ∧
    (5 ≤ c.length → readBe32 (c.drop 1) ≤ 100000000 →
      c.length < 5 + readBe32 (c.drop 1) →
      Receiver.receive lib [c, []] [] = .err (.Io "UnexpectedEof")) := by
  refine ⟨rfl, ?_, ?_⟩
  · intro hne hlt
    have hlen : c.length ≠ 0 := by
      intro h
      exact hne (List.length_eq_zero.mp h)
    refine ⟨?_, by simp⟩
    unfold Receiver.receive
    rw [fill_step 5 c [[]] [] (by simp) hlen, List.nil_append,
        fill_eof 5 [] c (by omega)]
    simp only [List.isEmpty_iff]
    rw [if_neg hne]
  · intro h5 hmax hshort
    unfold Receiver.receive
    have hlen : c.length ≠ 0 := by omega
    rw [fill_step 5 c [[]] [] (by simp) hlen, List.nil_append, fill_done 5 [[]] c h5]
    simp only []
    rw [if_neg (by omega), fill_eof (5 + readBe32 (c.drop 1)) [] c (by omega)]

/-- Witness for C3's amended statement at concrete partial-header and
partial-body inputs. -/
theorem c3_eof_amended_witness :
    Receiver.receive idLib [[]] [] = .err (.Io "UnexpectedEof") ∧
    (Receiver.receive idLib [[1, 0, 0], []] []
        = .err (.Protocol "Connection closed incomplete") ∧
      AqueductError.Protocol "Connection closed incomplete" ≠ .Io "UnexpectedEof") ∧
    Receiver.receive idLib [[1, 0, 0, 0, 30, 0], []] [] = .err (.Io "UnexpectedEof") :=
  ⟨(c3_eof_amended idLib []).1,
   (c3_eof_amended idLib [1, 0, 0]).2.1 (by decide) (by decide),
   (c3_eof_amended idLib [1, 0, 0, 0, 30, 0]).2.2 (by decide) (by decide) (by decide)⟩

/-! ## Sender lemmas -/

/-- When the compressed block fits the reserved worst case, `Sender::send`
publishes the video frame with its payload replaced by the encoded block —
over either the buffer-reusing path or the allocating path. -/
theorem send_video_ok (lib : Lz4Lib) (shared : BytesMut) (lockOk : Bool) (f : VideoFrame)
    (hfits : (lib.compressBlock f.data).length ≤ get_maximum_output_size f.data.length) :
    Sender.send lib shared lockOk (.Video f) =
      .ok (.Video { f with data := u32le f.data.length ++ lib.compressBlock f.data }) := by
  cases lockOk
  · simp only [Sender.send, Bool.false_eq_true, if_false]
    rw [encode_ok lib f hfits]
  · simp only [Sender.send, if_true]
    rw [show shared.clear = (⟨[], shared.cap⟩ : BytesMut) from rfl,
        encode_into_ok lib f ⟨[], shared.cap⟩ hfits]
    simp only [List.nil_append]

/-- A compressor that never fits the reserved worst case: `encode_into`
and `encode` always fail on it.  Used to exercise the fallback path. -/
def tinyLib : Lz4Lib :=
  { compressBlock := fun _ => List.replicate 17 1
    decompressBlock := fun _ => none }

/-! ## Claim C7 -/

/-- C7: under the `lz4_flex` contract, `Sender::send` of a video packet
publishes the compressed frame whether or not the shared-buffer lock is
acquired (the lock-failure path falls back to the allocating `encode` with the
same published result, so the publish attempt is not lost); and when the
buffer-reusing `encode_into` path fails, `send` is exactly the allocating
`encode` path. -/
theorem c7_send_fallback (lib : Lz4Lib) (shared : BytesMut) (f : VideoFrame) :
    (Lz4Valid lib → ∀ lockOk : Bool,
      Sender.send lib shared lockOk (.Video f) =
        .ok (.Video { f with data := u32le f.data.length ++ lib.compressBlock f.data })) ∧
    (∀ e : AqueductError, Lz4Codec.encode_into lib f shared.clear = .error e →
      Sender.send lib shared true (.Video f) =
        (Lz4Codec.encode lib f).map (fun bs => Packet.Video { f with data := bs })) := by
  constructor
  · intro hv lockOk
    exact send_video_ok lib shared lockOk f (hv.fits f.data)
  · intro e herr
    simp only [Sender.send, if_true, herr]
    cases hE : Lz4Codec.encode lib f <;> simp only [Except.map]

/-- Witness for C7: the lock-failure fallback at the identity codec, and the
`encode_into`-failure fallback at a codec whose blocks never fit. -/
theorem c7_send_fallback_witness :
    Sender.send idLib ⟨[], 0⟩ false (.Video ⟨4, 4, .BGRA, FrameFlags.default, 0, [9]⟩)
      = .ok (.Video { (⟨4, 4, .BGRA, FrameFlags.default, 0, [9]⟩ : VideoFrame) with
                      data := u32le 1 ++ idLib.compressBlock [9] }) ∧
    Sender.send tinyLib ⟨[], 5⟩ true (.Video ⟨1, 1, .UYVY, FrameFlags.default, 0, []⟩)
      = (Lz4Codec.encode tinyLib ⟨1, 1, .UYVY, FrameFlags.default, 0, []⟩).map
          (fun bs => Packet.Video
            { (⟨1, 1, .UYVY, FrameFlags.default, 0, []⟩ : VideoFrame) with data := bs }) :=
  ⟨(c7_send_fallback idLib ⟨[], 0⟩ ⟨4, 4, .BGRA, FrameFlags.default, 0, [9]⟩).1
      idLib_valid false,
   (c7_send_fallback tinyLib ⟨[], 5⟩ ⟨1, 1, .UYVY, FrameFlags.default, 0, []⟩).2
      (.Protocol "Compression error: output too small") rfl⟩

/-! ## Claim C8 -/

/-- C8: `Sender::send` modifies only a video frame's `data` field (replacing
it by the compressed bytes before publication); its width, height, format,
flags and timestamp are unchanged, and audio and metadata packets are
published entirely unmodified. -/
theorem c8_send_frame_effect (lib : Lz4Lib) (shared : BytesMut) (lockOk : Bool)
    (p : Packet) (hv : Lz4Valid lib) :
    Sender.send lib shared lockOk p =
      .ok (match p with
           | .Video f => .Video ⟨f.width, f.height, f.format, f.flags, f.timestamp,
                                 u32le f.data.length ++ lib.compressBlock f.data⟩
           | .Audio f => .Audio f
           | .Metadata f => .Metadata f) := by
  cases p with
  | Video f => exact send_video_ok lib shared lockOk f (hv.fits f.data)
  | Audio f => rfl
  | Metadata f => rfl

/-- Witness for C8 at a concrete audio packet and a concrete video packet. -/
theorem c8_send_frame_effect_witness :
    Sender.send idLib ⟨[], 0⟩ true (.Audio ⟨48000, 2, 5, [1, 2, 3, 4, 5, 6, 7, 8]⟩)
      = .ok (.Audio ⟨48000, 2, 5, [1, 2, 3, 4, 5, 6, 7, 8]⟩) ∧
    Sender.send idLib ⟨[], 0⟩ true (.Video ⟨7, 9, .NV12, FrameFlags.default, 3, [5]⟩)
      = .ok (.Video ⟨7, 9, .NV12, FrameFlags.default, 3,
                     u32le 1 ++ idLib.compressBlock [5]⟩) :=
  ⟨c8_send_frame_effect idLib ⟨[], 0⟩ true (.Audio ⟨48000, 2, 5, [1, 2, 3, 4, 5, 6, 7, 8]⟩)
      idLib_valid,
   c8_send_frame_effect idLib ⟨[], 0⟩ true (.Video ⟨7, 9, .NV12, FrameFlags.default, 3, [5]⟩)
      idLib_valid⟩

/-! ## Wire-parse lemmas -/

theorem drop8_two_u32be (v v' : Nat) (t : List Nat) :
    (u32be v ++ (u32be v' ++ t)).drop 8 = t := rfl

theorem drop9_two_u32be (v v' b : Nat) (t : List Nat) :
    (u32be v ++ (u32be v' ++ (b :: t))).drop 9 = t := rfl

theorem drop17_video_header (v v' b w : Nat) (t : List Nat) :
    (u32be v ++ (u32be v' ++ (b :: (u64be w ++ t)))).drop 17 = t := rfl

/-- Parsing a serialized video record whose in-range fields decompress cleanly
delivers the frame with default flags and the decompressed payload, consuming
the record exactly. -/
theorem receive_write_video (lib : Lz4Lib) (f : VideoFrame) (r : List Nat)
    (hw : f.width < 4294967296) (hh : f.height < 4294967296)
    (ht : f.timestamp < 18446744073709551616)
    (hd4 : 4 ≤ f.data.length)
    (hsz : 17 + f.data.length ≤ 100000000)
    (hdec : lib.decompressBlock (f.data.drop 4) = some r)
    (hr : r.length = readLe32 f.data) :
    Receiver.receive lib [write_packet (.Video f)] [] =
      .ok (.Video ⟨f.width, f.height, f.format, FrameFlags.default, f.timestamp, r⟩)
        [] [] := by
  set n := f.data.length with hn
  have hlenfield : videoLenField n = 17 + n := by
    rw [videoLenField]; omega
  set T := u32be f.width ++ (u32be f.height ++
    (f.format.toU8 :: (u64be f.timestamp ++ f.data))) with hT
  have hTlen : T.length = 17 + n := by
    simp only [hT, List.length_append, List.length_cons, length_u32be, length_u64be, ← hn]
    omega
  have hbytes : write_packet (.Video f) = 1 :: (u32be (17 + n) ++ T) := by
    simp only [write_packet, hlenfield, hT, ← hn, List.append_assoc, List.cons_append,
      List.singleton_append, List.nil_append]
  set B := 1 :: (u32be (17 + n) ++ T) with hB
  have hBlen : B.length = 5 + (17 + n) := by
    simp only [hB, List.length_cons, List.length_append, length_u32be, hTlen]
    omega
  have hdrop1 : B.drop 1 = u32be (17 + n) ++ T := rfl
  have hdrop5 : B.drop 5 = T := by
    rw [hB]
    show (u32be (17 + n) ++ T).drop 4 = T
    rw [drop4_u32be]
  have hlen32 : readBe32 (B.drop 1) = 17 + n := by
    rw [hdrop1, readBe32_u32be]
    omega
  rw [hbytes]
  unfold Receiver.receive
  rw [fill_step 5 B [] [] (by simp) (by rw [hBlen]; omega), List.nil_append,
      fill_done 5 [] B (by rw [hBlen]; omega)]
  simp only [hlen32]
  rw [if_neg (by omega)]
  rw [fill_done (5 + (17 + n)) [] B (by rw [hBlen])]
  simp only [hdrop5]
  have hpayload : T.take (17 + n) = T := List.take_of_length_le (by rw [hTlen])
  have hremaining : B.drop (5 + (17 + n)) = [] :=
    List.drop_eq_nil_of_le (by rw [hBlen])
  rw [hpayload, hremaining]
  have hgetD0 : B.getD 0 0 = 1 := rfl
  rw [hgetD0]
  simp only []
  rw [if_neg (by omega)]
  have hwidth : readBe32 T = f.width := by
    rw [hT, readBe32_u32be]; omega
  have hheight : readBe32 (T.drop 4) = f.height := by
    rw [hT, drop4_u32be, readBe32_u32be]; omega
  have hfmt : (T.drop 8).getD 0 0 = f.format.toU8 := by
    rw [hT, drop8_two_u32be, List.getD_cons_zero]
  have hts : readBe64 (T.drop 9) = f.timestamp := by
    rw [hT, drop9_two_u32be, readBe64_u64be]; omega
  have hcomp : T.drop 17 = f.data := by
    rw [hT, drop17_video_header]
  rw [hwidth, hheight, hfmt, hts, hcomp, from_u8_toU8]
  rw [decode_into_ok lib f.data ⟨[], 4096⟩ r (by simp) hd4 hdec hr]

/-! ## Claim C1 -/

/-- The concrete frame of the C1 scenario: width 4, height 4, pixel format
code 2 (`BGRA`), 64 zero data bytes. -/
def frame0 : VideoFrame :=
  ⟨4, 4, .BGRA, FrameFlags.default, 0, List.replicate 64 0⟩

/-- C1: under the `lz4_flex` contract, the full pipeline — `Sender::send`
compression, `write_packet` serialization, `Receiver::receive` parsing and
decompression — delivers the C1 scenario frame with width 4, height 4, the
same format code, and exactly the original 64 zero bytes. -/
theorem c1_pipeline_roundtrip (lib : Lz4Lib) (hv : Lz4Valid lib)
    (shared : BytesMut) (lockOk : Bool) :
    Sender.send lib shared lockOk (.Video frame0) =
      .ok (.Video { frame0 with
        data := u32le frame0.data.length ++ lib.compressBlock frame0.data }) ∧
    Receiver.receive lib
      [write_packet (.Video { frame0 with
        data := u32le frame0.data.length ++ lib.compressBlock frame0.data })] [] =
      .ok (.Video frame0) [] [] := by
  have hclen : (lib.compressBlock frame0.data).length ≤ 80 := by
    have := hv.fits frame0.data
    simpa [frame0, get_maximum_output_size] using this
  refine ⟨send_video_ok lib shared lockOk frame0 (hv.fits frame0.data), ?_⟩
  have h := receive_write_video lib
    { frame0 with data := u32le frame0.data.length ++ lib.compressBlock frame0.data }
    frame0.data
    (by norm_num [frame0]) (by norm_num [frame0]) (by norm_num [frame0])
    (by simp [List.length_append, length_u32le])
    (by simp only [List.length_append, length_u32le]; omega)
    (by rw [drop4_u32le]; exact hv.roundtrip frame0.data)
    (by rw [readLe32_u32le]; simp [frame0])
  simpa using h

/-- Witness for C1 at the identity block codec with the lock held. -/
theorem c1_pipeline_roundtrip_witness :
    Sender.send idLib ⟨[], 0⟩ true (.Video frame0) =
      .ok (.Video { frame0 with
        data := u32le frame0.data.length ++ idLib.compressBlock frame0.data }) ∧
    Receiver.receive idLib
      [write_packet (.Video { frame0 with
        data := u32le frame0.data.length ++ idLib.compressBlock frame0.data })] [] =
      .ok (.Video frame0) [] [] :=
  c1_pipeline_roundtrip idLib idLib_valid ⟨[], 0⟩ true

/-! ## Fan-out channel lemmas -/

/-- Whether an outcome is a lag report. -/
def isLag : RecvOut → Bool
  | .lagged _ => true
  | _ => false

theorem chanRecv_empty (c n : Nat) (h : c = n) : chanRecv c n = (.empty, c) := by
  unfold chanRecv
  rw [if_pos h]

theorem chanRecv_msg (c n : Nat) (h1 : c ≠ n) (h2 : n - c ≤ chanCap) :
    chanRecv c n = (.msg c, c + 1) := by
  unfold chanRecv
  rw [if_neg h1, if_pos h2]

theorem chanRecv_lagged (c n : Nat) (h1 : c ≠ n) (h2 : ¬ n - c ≤ chanCap) :
    chanRecv c n = (.lagged (n - chanCap - c), n - chanCap) := by
  unfold chanRecv
  rw [if_neg h1, if_neg h2]

theorem chanRecv_lag (c n : Nat) (h1 : c ≤ n) (h2 : chanCap < n - c) :
    chanRecv c n = (.lagged (n - chanCap - c), n - chanCap) ∧ c < n - chanCap := by
  refine ⟨chanRecv_lagged c n (by omega) (by omega), ?_⟩
  simp only [chanCap] at h2 ⊢
  omega

/-- Run invariants: the cursor never runs past the publish count or moves
backwards, every delivered index is at least the starting cursor, and the
delivered indices are strictly increasing (no packet is delivered twice). -/
theorem chanRun_props : ∀ (evs : List ChanEv) (n c : Nat), c ≤ n →
    c ≤ (chanRun evs n c).2.2 ∧ (chanRun evs n c).2.2 ≤ (chanRun evs n c).2.1 ∧
    (∀ i ∈ deliveredOf (chanRun evs n c).1, c ≤ i) ∧
    List.Chain' (· < ·) (deliveredOf (chanRun evs n c).1) := by
  intro evs
  induction evs with
  | nil =>
      intro n c h
      simp [chanRun, deliveredOf, h]
  | cons ev evs ih =>
      intro n c h
      cases ev with
      | pub =>
          simp only [chanRun]
          exact ih (n + 1) c (by omega)
      | recv =>
          simp only [chanRun]
          by_cases h1 : c = n
          · rw [chanRecv_empty c n h1]
            have := ih n c h
            simpa [deliveredOf, List.filterMap_cons] using this
          · by_cases h2 : n - c ≤ chanCap
            · rw [chanRecv_msg c n h1 h2]
              have hc1 : c + 1 ≤ n := by omega
              have := ih n (c + 1) hc1
              simp only [deliveredOf, List.filterMap_cons] at this ⊢
              refine ⟨by omega, this.2.1, ?_, ?_⟩
              · intro i hi
                rcases List.mem_cons.mp hi with rfl | hi2
                · omega
                · have := this.2.2.1 i hi2
                  omega
              · refine List.Chain'.cons' this.2.2.2 ?_
                intro y hy
                have := this.2.2.1 y (List.mem_of_mem_head? hy)
                omega
            · rw [chanRecv_lagged c n h1 h2]
              simp only [chanCap] at h2
              have hle : n - 16 ≤ n := by omega
              have := ih n (n - 16) hle
              simp only [deliveredOf, List.filterMap_cons, chanCap] at this ⊢
              refine ⟨by omega, this.2.1, ?_, this.2.2.2⟩
              intro i hi
              have := this.2.2.1 i hi
              omega

/-- A run with no lag report delivers exactly the consecutive publish indices
from the starting cursor to the final cursor. -/
theorem chanRun_nolag : ∀ (evs : List ChanEv) (n c : Nat), c ≤ n →
    (∀ o ∈ (chanRun evs n c).1, isLag o = false) →
    deliveredOf (chanRun evs n c).1 = List.range' c ((chanRun evs n c).2.2 - c) := by
  intro evs
  induction evs with
  | nil =>
      intro n c h _
      simp [chanRun, deliveredOf]
  | cons ev evs ih =>
      intro n c h hnolag
      cases ev with
      | pub =>
          simp only [chanRun] at hnolag ⊢
          exact ih (n + 1) c (by omega) hnolag
      | recv =>
          simp only [chanRun] at hnolag ⊢
          by_cases h1 : c = n
          · rw [chanRecv_empty c n h1] at hnolag ⊢
            simp only [deliveredOf, List.filterMap_cons]
            exact ih n c h (fun o ho => hnolag o (List.mem_cons_of_mem _ ho))
          · by_cases h2 : n - c ≤ chanCap
            · rw [chanRecv_msg c n h1 h2] at hnolag ⊢
              have hc1 : c + 1 ≤ n := by omega
              have hrec := ih n (c + 1) hc1
                (fun o ho => hnolag o (List.mem_cons_of_mem _ ho))
              have hfc : c + 1 ≤ (chanRun evs n (c + 1)).2.2 :=
                (chanRun_props evs n (c + 1) hc1).1
              simp only [deliveredOf, List.filterMap_cons]
              simp only [deliveredOf] at hrec
              rw [hrec]
              have hk : (chanRun evs n (c + 1)).2.2 - c
                  = ((chanRun evs n (c + 1)).2.2 - (c + 1)) + 1 := by omega
              rw [hk, List.range'_succ]
            · rw [chanRecv_lagged c n h1 h2] at hnolag
              have := hnolag (.lagged (n - chanCap - c)) (List.mem_cons_self _ _)
              simp [isLag] at this

/-! ## Claim C9 -/

/-- C9 (channel modelled from the spec): over any schedule, a subscriber's
delivered publish indices are strictly increasing — no packet is ever
received twice; a subscriber that never lags receives exactly the consecutive
published packets from its starting cursor, in publish order; and a `recv`
that is more than the 16-packet capacity behind returns a lag report carrying
the number of skipped packets and resumes at a strictly later,
never-delivered index.  Subscribers are independent: each holds its own
cursor, so this holds for each of any number of subscribers. -/
theorem c9_broadcast_semantics (evs : List ChanEv) (n c : Nat) (hcn : c ≤ n) :
    List.Chain' (· < ·) (deliveredOf (chanRun evs n c).1) ∧
    ((∀ o ∈ (chanRun evs n c).1, isLag o = false) →
      deliveredOf (chanRun evs n c).1 = List.range' c ((chanRun evs n c).2.2 - c)) ∧
    (∀ c' n', c' ≤ n' → chanCap < n' - c' →
      chanRecv c' n' = (.lagged (n' - chanCap - c'), n' - chanCap) ∧ c' < n' - chanCap) :=
  ⟨(chanRun_props evs n c hcn).2.2.2,
   chanRun_nolag evs n c hcn,
   fun c' n' h1 h2 => chanRecv_lag c' n' h1 h2⟩

/-- Witness for C9: a two-publish, two-recv schedule delivering `[0, 1]`, and
a lag at cursor 0 against 20 published packets. -/
theorem c9_broadcast_semantics_witness :
    List.Chain' (· < ·)
      (deliveredOf (chanRun [ChanEv.pub, ChanEv.pub, ChanEv.recv, ChanEv.recv] 0 0).1) ∧
    deliveredOf (chanRun [ChanEv.pub, ChanEv.pub, ChanEv.recv, ChanEv.recv] 0 0).1
      = List.range'
          0 ((chanRun [ChanEv.pub, ChanEv.pub, ChanEv.recv, ChanEv.recv] 0 0).2.2 - 0) ∧
    (chanRecv 0 20 = (.lagged 4, 4) ∧ 0 < 20 - chanCap) :=
  ⟨(c9_broadcast_semantics [ChanEv.pub, ChanEv.pub, ChanEv.recv, ChanEv.recv] 0 0
      (by norm_num)).1,
   (c9_broadcast_semantics [ChanEv.pub, ChanEv.pub, ChanEv.recv, ChanEv.recv] 0 0
      (by norm_num)).2.1 (by decide),
   (c9_broadcast_semantics [ChanEv.pub, ChanEv.pub, ChanEv.recv, ChanEv.recv] 0 0
      (by norm_num)).2.2 0 20 (by norm_num) (by decide)⟩

end Aqueduct
